import Mathlib

/-
Verification development for the production-allocation repository.

The development shallowly embeds the parts of the code base that the
checked properties are about:

* utilities.py        : the fractional-knapsack upper bound used for
                        objective normalization;
* prod_allocation.py  : item classification (skip reasons), solution
                        decoding, and the objective bound/gap metrics of
                        allocate;
* optimizer.py        : the preprocessing pipeline, the posted CP-SAT
                        constraints (as a predicate on variable
                        assignments), the objective assembly and the
                        integer coefficient computations of
                        optimize_plants_assignment;
* inputvalidations.py : the keyword signature of validate_input, together
                        with the keyword set actually supplied at the call
                        site inside optimize_plants_assignment.

Python float arithmetic is modelled exactly over the rationals, Python
integers over Int, and the external CP-SAT solver is treated as an oracle:
post-solve properties are stated for every variable assignment that
satisfies the posted constraints.
-/

namespace ProdAlloc

/-- Python rounding with one argument: round-half-to-even on rationals,
returning an integer.  Models the builtin round used by the coefficient
computations in optimizer.py. -/
def pyRound (x : ℚ) : ℤ :=
  if x - ⌊x⌋ < 1/2 then ⌊x⌋
  else if 1/2 < x - ⌊x⌋ then ⌊x⌋ + 1
  else if ⌊x⌋ % 2 = 0 then ⌊x⌋ else ⌊x⌋ + 1

/-- Global integer scaling constant for objective coefficients
(optimizer.py, K = 10_000). -/
def K : ℤ := 10000

/-- Additive objective coefficient from optimizer.py:
coef = int(round(K * weight / ub)) or 1.  The Python `or 1` turns a zero
rounding result into 1. -/
def addCoef (w ub : ℚ) : ℤ :=
  if pyRound ((K : ℚ) * w / ub) = 0 then 1 else pyRound ((K : ℚ) * w / ub)

/-- Signed additive coefficient (optimizer.py): the coefficient is negated
for the minimize sense, kept for maximize. -/
def signedCoef (sense : String) (coef : ℤ) : ℤ :=
  if sense = "maximize" then coef else -coef

/-- Structural penalty coefficient _coef from optimizer.py:
0 when the weight is nonpositive, otherwise max(1, round(K * w / max(1, d))). -/
def structCoef (w : ℚ) (denom : ℤ) : ℤ :=
  if w ≤ 0 then 0 else max 1 (pyRound ((K : ℚ) * w / ((max 1 denom : ℤ) : ℚ)))

/-- Greedy fractional filling loop of _fractional_knapsack_ub
(utilities.py): pairs are (value, quantity); while capacity remains, take
min(cap, q) units of the next pair and add v * take / q. -/
def greedy : List (ℚ × ℚ) → ℚ → ℚ
  | [], _ => 0
  | a :: t, c =>
      if c ≤ 0 then 0
      else a.1 * (min c a.2 / a.2) + greedy t (c - min c a.2)

/-- Free contribution of _fractional_knapsack_ub (utilities.py line 20):
the sum of the positive values of the zero-quantity pairs. -/
def knapFree (pairs : List (ℤ × ℤ)) : ℤ :=
  ((pairs.filter fun vq => vq.2 == 0 && decide (0 < vq.1)).map Prod.fst).sum

/-- Positive part of _fractional_knapsack_ub (utilities.py line 23): the
pairs with positive quantity and positive value, as rational pairs. -/
def knapPos (pairs : List (ℤ × ℤ)) : List (ℚ × ℚ) :=
  (pairs.filter fun vq => decide (0 < vq.2) && decide (0 < vq.1)).map
    fun vq => ((vq.1 : ℚ), (vq.2 : ℚ))

/-- Ratio ordering of _fractional_knapsack_ub (utilities.py line 28):
value/quantity ratio descending. -/
def ratioDesc (a b : ℚ × ℚ) : Prop := b.1 / b.2 ≤ a.1 / a.2

instance : DecidableRel ratioDesc :=
  fun a b => inferInstanceAs (Decidable (b.1 / b.2 ≤ a.1 / a.2))

/-- Embedding of _fractional_knapsack_ub from utilities.py.  Items with
quantity 0 and positive value contribute their value for free; items with
positive quantity and positive value are sorted by value/quantity ratio
descending and filled greedily (fractionally at the margin).  Rational
arithmetic stands in for Python float arithmetic; any stable sort by the
descending ratio gives the value computed by the source loop. -/
def _fractional_knapsack_ub (values quantities : List ℤ) (capacity : ℤ) : ℚ :=
  if capacity < 0 ∨ values = [] then 0
  else (knapFree (values.zip quantities) : ℚ) +
    greedy (List.insertionSort ratioDesc (knapPos (values.zip quantities)))
      (capacity : ℚ)

/-- Sum of the entries of a list selected by a boolean mask (a 0/1
selection of items). -/
def selectedSum (xs : List ℤ) (sel : List Bool) : ℤ :=
  (((xs.zip sel).filter fun p => p.2).map Prod.fst).sum

/-- Plant record (domain_types.py): identifier, capacity and the list of
model names the plant may produce. -/
structure PlantRec where
  plantid : ℤ
  capacity : ℤ
  allowedModels : List String
deriving DecidableEq

/-- Item record (domain_types.py): model key, submodel and quantity. -/
structure ItemRec where
  model : String
  submodel : String
  quantity : ℤ
deriving DecidableEq

/-- Order record (domain_types.py): order name and its list of items.  Due
dates are not modelled because no checked property depends on urgency. -/
structure OrderRec where
  order : String
  items : List ItemRec
deriving DecidableEq

/-- Flattening of order items performed by allocate (prod_allocation.py):
the list of (order index, item) pairs in input order. -/
def flatItems (orders : List OrderRec) : List (ℕ × ItemRec) :=
  (orders.enum.map fun oi => oi.2.items.map fun it => (oi.1, it)).flatten

/-- Compatible plants of an item (plant_can_make in prod_allocation.py):
the plants whose allowedModels list contains the model of the item. -/
def compatPlants (plants : List PlantRec) (it : ItemRec) : List PlantRec :=
  plants.filter fun p => it.model ∈ p.allowedModels

/-- Indices of the compatible plants of an item, in plant order
(compatible_plants in prod_allocation.py). -/
def compatIdx (plants : List PlantRec) (it : ItemRec) : List ℕ :=
  (List.range plants.length).filter fun p =>
    it.model ∈ (plants.getD p ⟨0, 0, []⟩).allowedModels

/-- Skip reasons of allocate (allocation_types.py SkippedRow). -/
inductive SkipReason where
  | no_compatible_plant
  | too_large_for_any_plant
deriving DecidableEq

/-- Classification of one input item by the preprocessing in allocate
(prod_allocation.py lines 304-348): an item with no compatible plant is
skipped (even with quantity zero); an item with positive quantity that
exceeds the capacity of every compatible plant but not their aggregate
capacity is skipped as too large; every other item receives decision
variables (none). -/
def classifyItem (plants : List PlantRec) (it : ItemRec) : Option SkipReason :=
  if compatPlants plants it = [] then some .no_compatible_plant
  else if 0 < it.quantity ∧
      (∀ p ∈ compatPlants plants it, p.capacity < it.quantity) ∧
      it.quantity ≤ ((compatPlants plants it).map fun p => p.capacity).sum then
    some .too_large_for_any_plant
  else none

/-- Skipped row of the allocate result (allocation_types.py SkippedRow,
keeping the fields the checked properties use). -/
structure SkippedRowE where
  order_index : ℕ
  model : String
  submodel : String
  quantity : ℤ
  reason : SkipReason
deriving DecidableEq

/-- Allocation row of the allocate result (allocation_types.py
AllocationRow, with the plant kept as its index). -/
structure AllocRowE where
  plant_index : ℕ
  order_index : ℕ
  model : String
  submodel : String
  allocated_qty : ℤ
deriving DecidableEq

/-- Unallocated row of the allocate result (allocation_types.py
UnallocatedRow); the reason is always insufficient_capacity. -/
structure UnallocRowE where
  order_index : ℕ
  model : String
  submodel : String
  requested_qty : ℤ
deriving DecidableEq

/-- Skipped rows produced by the preprocessing loop of allocate, in item
order. -/
def skippedRows (plants : List PlantRec) (orders : List OrderRec) :
    List SkippedRowE :=
  (flatItems orders).filterMap fun ki =>
    match classifyItem plants ki.2 with
    | some r => some ⟨ki.1, ki.2.model, ki.2.submodel, ki.2.quantity, r⟩
    | none => none

/-- Allocations decoded from a solver assignment (prod_allocation.py lines
475-495).  placedV and assignV give the solver values of the placed and
assign variables; an item is reported allocated when it is neither skipped
nor of zero quantity, its placed variable is 1 and some compatible plant
has assign value 1 (the first such plant is chosen). -/
def decodeAllocations (plants : List PlantRec) (orders : List OrderRec)
    (placedV : ℕ → Bool) (assignV : ℕ → ℕ → Bool) : List AllocRowE :=
  (flatItems orders).enum.filterMap fun ki =>
    let k := ki.1
    let it := ki.2.2
    if (classifyItem plants it).isSome ∨ it.quantity = 0 then none
    else if placedV k then
      match (compatIdx plants it).find? fun p => assignV p k with
      | some p => some ⟨p, ki.2.1, it.model, it.submodel, it.quantity⟩
      | none => none
    else none

/-- Unallocated rows decoded from a solver assignment (prod_allocation.py
lines 496-505): modelled items with positive quantity whose placed
variable is 0. -/
def decodeUnallocated (plants : List PlantRec) (orders : List OrderRec)
    (placedV : ℕ → Bool) : List UnallocRowE :=
  (flatItems orders).enum.filterMap fun ki =>
    let k := ki.1
    let it := ki.2.2
    if (classifyItem plants it).isSome ∨ it.quantity = 0 then none
    else if placedV k then none
    else some ⟨ki.2.1, it.model, it.submodel, it.quantity⟩

/-- Result of allocate as the code builds it (prod_allocation.py lines
534-583): the returned dict carries exactly the three row lists
allocations, skipped and unallocated; no zero-quantity bucket is emitted,
although the declared AllocateResult type (allocation_types.py) has a
fourth key zero_quantity_items. -/
structure AllocateResultE where
  allocations : List AllocRowE
  skipped : List SkippedRowE
  unallocated : List UnallocRowE
deriving DecidableEq

/-- Embedded allocate outcome for a given solver assignment of the placed
and assign variables. -/
def allocateResult (plants : List PlantRec) (orders : List OrderRec)
    (placedV : ℕ → Bool) (assignV : ℕ → ℕ → Bool) : AllocateResultE :=
  ⟨decodeAllocations plants orders placedV assignV,
   skippedRows plants orders,
   decodeUnallocated plants orders placedV⟩

/-- Solver statuses surfaced by allocate. -/
inductive CpStatus where
  | OPTIMAL
  | FEASIBLE
  | INFEASIBLE
  | MODEL_INVALID
  | UNKNOWN
deriving DecidableEq

/-- Objective bound metrics computed by allocate (prod_allocation.py lines
516-531): for an OPTIMAL or FEASIBLE status with objective value v and
best bound b, the tuple (v, b, gap_abs, gap_rel) with
gap_abs = max(0, b - v) and gap_rel = gap_abs / max(1, abs v); otherwise
none. -/
def objectiveBoundMetrics (status : CpStatus) (v b : ℚ) :
    Option (ℚ × ℚ × ℚ × ℚ) :=
  if status = .OPTIMAL ∨ status = .FEASIBLE then
    let gap_abs := max 0 (b - v)
    some (v, b, gap_abs, gap_abs / max 1 |v|)
  else none

/-- Deduplication keeping the first occurrence of each name, in scan
order; mirrors the unique_names construction loop of
optimize_plants_assignment (optimizer.py lines 181-187): names are
appended on first sight. -/
def dedupFirst (l : List String) : List String :=
  l.foldl (fun acc a => if acc.contains a then acc else acc ++ [a]) []

/-- Input of optimize_plants_assignment (optimizer.py), restricted to the
fields the checked properties depend on.  Quantities and capacities are
integers; validate_input requires quantities nonnegative and capacities
positive. -/
structure OptInput where
  model_names : List String
  item_quantities : List ℤ
  caps : List ℤ
  allowed : List (List String)
deriving DecidableEq

/-- Kept items of the upfront filter (optimizer.py lines 129-132): the
item indices whose model name is supported by at least one plant. -/
def keptItems (inp : OptInput) : List ℕ :=
  (List.range inp.model_names.length).filter fun i =>
    inp.allowed.any fun s => (inp.model_names.getD i "") ∈ s

/-- Number of kept items. -/
def numKept (inp : OptInput) : ℕ := (keptItems inp).length

/-- Number of plants (P in optimizer.py). -/
def numPlants (inp : OptInput) : ℕ := inp.caps.length

/-- Unique model names among kept items, first occurrence order
(unique_names in optimizer.py). -/
def uniqueNames (inp : OptInput) : List String :=
  dedupFirst ((keptItems inp).map fun i => inp.model_names.getD i "")

/-- Number of model groups (C in optimizer.py). -/
def numGroups (inp : OptInput) : ℕ := (uniqueNames inp).length

/-- Original item index of a local kept index (local_to_orig). -/
def localOrig (inp : OptInput) (li : ℕ) : ℕ := (keptItems inp).getD li 0

/-- Quantity of the kept item with local index li. -/
def qtyL (inp : OptInput) (li : ℕ) : ℤ :=
  inp.item_quantities.getD (localOrig inp li) 0

/-- Model name of the kept item with local index li. -/
def modelL (inp : OptInput) (li : ℕ) : String :=
  inp.model_names.getD (localOrig inp li) ""

/-- Model name of group ci. -/
def groupName (inp : OptInput) (ci : ℕ) : String := (uniqueNames inp).getD ci ""

/-- Whether plant p may produce the model of group ci (membership of the
group name in allowed_sets[p]). -/
def allowedB (inp : OptInput) (ci p : ℕ) : Bool :=
  decide (groupName inp ci ∈ inp.allowed.getD p [])

/-- Local indices of the kept items of group ci (idxs_local in
optimizer.py). -/
def idxsLocal (inp : OptInput) (ci : ℕ) : List ℕ :=
  (List.range (numKept inp)).filter fun li => modelL inp li == groupName inp ci

/-- Integer value of a boolean CP-SAT variable. -/
def bI (b : Bool) : ℤ := if b then 1 else 0

/-- Variable assignment of the CP-SAT model built by
optimize_plants_assignment: x[li][p] assignment booleans over local kept
item indices, z[ci][p] group presence, u[ci] group used, y[p] plant used,
sf[ci][p] integer soft shortfall variables. -/
structure Assign where
  x : ℕ → ℕ → Bool
  z : ℕ → ℕ → Bool
  u : ℕ → Bool
  y : ℕ → Bool
  sf : ℕ → ℕ → ℤ

/-- Quantity of group ci placed at plant p under an assignment. -/
def groupQty (inp : OptInput) (a : Assign) (ci p : ℕ) : ℤ :=
  ((idxsLocal inp ci).map fun li => qtyL inp li * bI (a.x li p)).sum

/-- Constraints posted by optimize_plants_assignment (optimizer.py lines
253-297 and 341-347), as a predicate on assignments: at most one plant per
item; plant capacity; plant-used channeling; for every (group, plant)
pair, compatibility kill or presence links, the optional hard minimum lot
constraint, and the group-used links; and, when the soft minimum is
enabled, bounds and the shortfall inequality for the sf variables of the
allowed pairs. -/
def satisfies (inp : OptInput) (hard_min soft_min : ℤ) (softOn : Bool)
    (a : Assign) : Prop :=
  (∀ li < numKept inp,
    ((List.range (numPlants inp)).map fun p => bI (a.x li p)).sum ≤ 1) ∧
  (∀ p < numPlants inp,
    ((List.range (numKept inp)).map fun li => qtyL inp li * bI (a.x li p)).sum
      ≤ inp.caps.getD p 0) ∧
  (∀ p < numPlants inp, ∀ li < numKept inp, bI (a.x li p) ≤ bI (a.y p)) ∧
  (∀ p < numPlants inp,
    bI (a.y p) ≤ ((List.range (numKept inp)).map fun li => bI (a.x li p)).sum) ∧
  (∀ ci < numGroups inp, ∀ p < numPlants inp,
    (allowedB inp ci p = true →
      (∀ li ∈ idxsLocal inp ci, bI (a.x li p) ≤ bI (a.z ci p)) ∧
      bI (a.z ci p) ≤ ((idxsLocal inp ci).map fun li => bI (a.x li p)).sum ∧
      (0 < hard_min → hard_min * bI (a.z ci p) ≤ groupQty inp a ci p) ∧
      bI (a.z ci p) ≤ bI (a.u ci)) ∧
    (allowedB inp ci p = false →
      bI (a.z ci p) = 0 ∧ ∀ li ∈ idxsLocal inp ci, bI (a.x li p) = 0)) ∧
  (∀ ci < numGroups inp,
    bI (a.u ci) ≤ ((List.range (numPlants inp)).map fun p => bI (a.z ci p)).sum) ∧
  (softOn = true → ∀ ci < numGroups inp, ∀ p < numPlants inp,
    allowedB inp ci p = true →
      0 ≤ a.sf ci p ∧ a.sf ci p ≤ soft_min ∧
      soft_min * bI (a.z ci p) - groupQty inp a ci p ≤ a.sf ci p)

set_option maxHeartbeats 1000000 in
set_option synthInstance.maxHeartbeats 1000000 in
set_option synthInstance.maxSize 512 in
instance satisfiesDecidable (inp : OptInput) (hard_min soft_min : ℤ)
    (softOn : Bool) (a : Assign) :
    Decidable (satisfies inp hard_min soft_min softOn a) := by
  unfold satisfies
  infer_instance

/-- Allowed (group, plant) pairs (allowed_pairs in optimizer.py). -/
def allowedPairs (inp : OptInput) : List (ℕ × ℕ) :=
  (List.range (numGroups inp)).flatMap fun ci =>
    ((List.range (numPlants inp)).filter fun p => allowedB inp ci p).map
      fun p => (ci, p)

/-- Number of plants used, Σ y (plants_used_expr). -/
def plantsUsedExpr (inp : OptInput) (a : Assign) : ℤ :=
  ((List.range (numPlants inp)).map fun p => bI (a.y p)).sum

/-- Extra plants across groups, Σ z - Σ u (extra_plants_expr). -/
def extraPlantsExpr (inp : OptInput) (a : Assign) : ℤ :=
  ((List.range (numGroups inp)).map fun ci =>
    ((List.range (numPlants inp)).map fun p => bI (a.z ci p)).sum).sum -
  ((List.range (numGroups inp)).map fun ci => bI (a.u ci)).sum

/-- Total soft shortfall, Σ over allowed pairs of sf. -/
def shortfallExpr (inp : OptInput) (a : Assign) : ℤ :=
  ((allowedPairs inp).map fun cp => a.sf cp.1 cp.2).sum

/-- Additive objective part: for every term (signed coefficient, kept
values), signed_coef * Σ over kept items and plants of value * x. -/
def additiveExpr (inp : OptInput) (terms : List (ℤ × List ℤ)) (a : Assign) : ℤ :=
  (terms.map fun t =>
    t.1 * ((List.range (numKept inp)).map fun li =>
      ((List.range (numPlants inp)).map fun p =>
        t.2.getD li 0 * bI (a.x li p)).sum).sum).sum

/-- Scalarized objective of optimize_plants_assignment (optimizer.py lines
352-356): additive part minus the grouping, plants-used and soft shortfall
penalties.  When the soft minimum is disabled the code adds no shortfall
term, which is rendered here by a zero soft coefficient. -/
def objective (inp : OptInput) (terms : List (ℤ × List ℤ))
    (c_group c_plants c_soft : ℤ) (a : Assign) : ℤ :=
  additiveExpr inp terms a - c_group * extraPlantsExpr inp a -
    c_plants * plantsUsedExpr inp a - c_soft * shortfallExpr inp a

/-- Number of plants that may produce a model name (allowed_plants_per_
model_name in optimizer.py). -/
def allowedPlantsCount (inp : OptInput) (fam : String) : ℕ :=
  (inp.allowed.filter fun s => fam ∈ s).length

/-- Number of kept items of a model name. -/
def itemsOfNameCount (inp : OptInput) (fam : String) : ℕ :=
  ((keptItems inp).filter fun i => inp.model_names.getD i "" == fam).length

/-- Grouping normalizer extra_plants_max (optimizer.py lines 200-205). -/
def extra_plants_max (inp : OptInput) : ℤ :=
  max 1 (((uniqueNames inp).map fun fam =>
    max 0 ((min (allowedPlantsCount inp fam) (itemsOfNameCount inp fam) : ℤ) - 1)).sum)

/-- Plants-used normalizer plants_used_max (optimizer.py line 208). -/
def plants_used_max (inp : OptInput) : ℤ :=
  min (numPlants inp : ℤ) (numKept inp : ℤ)

/-- Soft shortfall normalizer denom_soft (optimizer.py line 333). -/
def denom_soft (inp : OptInput) (soft_min : ℤ) : ℤ :=
  max 1 (soft_min * ((allowedPairs inp).length : ℤ))

/-- Additive objective specification (datatypes.py ObjectiveSpec). -/
structure ObjectiveSpecE where
  name : String
  values : List ℤ
  sense : String
  weight : ℚ
deriving DecidableEq

/-- Processing of one additive ObjectiveSpec by optimize_plants_assignment
(optimizer.py lines 215-240): specs with nonpositive weight are recorded
unused without further checks; then the sense is validated, the values
length is compared with the total item count, the values are restricted to
kept items and checked nonnegative there, and the knapsack upper bound
decides whether the spec contributes a signed integer coefficient. -/
def processSpec (n : ℕ) (kept : List ℕ) (quantities_kept : List ℤ)
    (total_capacity : ℤ) (spec : ObjectiveSpecE) :
    Except String (Option (ℤ × List ℤ)) :=
  if spec.weight ≤ 0 then .ok none
  else if ¬(spec.sense = "maximize" ∨ spec.sense = "minimize") then
    .error "sense must be maximize or minimize"
  else if spec.values.length ≠ n then
    .error "values length must equal number of items"
  else
    let v_kept := kept.map fun i => spec.values.getD i 0
    if v_kept.any fun v => decide (v < 0) then
      .error "negative values"
    else
      let ub := _fractional_knapsack_ub v_kept quantities_kept total_capacity
      if ub ≤ 1 / 1000000000 then .ok none
      else .ok (some (signedCoef spec.sense (addCoef spec.weight ub), v_kept))

/-- Keyword-only parameters of validate_input (inputvalidations.py lines
36-48); none of them has a default value, so a call must supply every one
of them. -/
def validate_input_kwparams : List String :=
  ["item_names", "model_names", "item_quantities", "order_ids",
   "plant_names", "plant_quantity_capacities",
   "allowed_model_names_per_plant", "additive_objectives",
   "min_allowed_qty_of_items_same_model_name_in_a_plant",
   "soft_min_qty_of_items_same_model_name_in_a_plant"]

/-- Keyword arguments supplied to validate_input at the call site inside
optimize_plants_assignment (optimizer.py lines 105-115). -/
def optimize_validate_call_kwargs : List String :=
  ["item_names", "model_names", "item_quantities",
   "plant_names", "plant_quantity_capacities",
   "allowed_model_names_per_plant", "additive_objectives",
   "min_allowed_qty_of_items_same_model_name_in_a_plant",
   "soft_min_qty_of_items_same_model_name_in_a_plant"]

/-- Modelled from Python call semantics: a keyword call binds exactly when
every required keyword-only parameter is supplied and no unexpected
keyword is passed; otherwise the call raises TypeError before the body of
the callee runs. -/
def pyKwCallBinds (required passed : List String) : Bool :=
  (required.all fun k => passed.contains k) &&
  (passed.all fun k => required.contains k)

/-- First executable step of optimize_plants_assignment (optimizer.py
lines 105-115): the keyword call to validate_input.  The keyword sets are
fixed by the source text, independent of the argument values, so the
outcome of this step is the same for every input. -/
def optimize_plants_assignment_entry : Except String Unit :=
  if pyKwCallBinds validate_input_kwparams optimize_validate_call_kwargs then
    .ok ()
  else .error "TypeError"

/-- All-zero assignment: no item placed, no presence, no plant used, zero
shortfalls. -/
def zeroAssign : Assign :=
  ⟨fun _ _ => false, fun _ _ => false, fun _ => false, fun _ => false,
   fun _ _ => 0⟩

/-- Single-item single-plant instance used to study the structural
weights: one item of model A with quantity 1, one plant of capacity 1
allowing A. -/
def c10inp : OptInput := ⟨["A"], [1], [1], [["A"]]⟩

/-- Additive terms of the single-item instance as the code derives them
from the spec (fill, [1], maximize, weight 1): signed coefficient 10000
over the kept values [1]. -/
def c10terms : List (ℤ × List ℤ) := [(10000, [1])]

/-- Assignment placing the single kept item on the single plant, with the
matching presence, used and plant-used variables set. -/
def oneAssign : Assign :=
  ⟨fun li p => li == 0 && p == 0, fun ci p => ci == 0 && p == 0,
   fun ci => ci == 0, fun p => p == 0, fun _ _ => 0⟩

/-- C3: the keyword call to validate_input inside
optimize_plants_assignment omits the required keyword-only parameter
order_ids of the validate_input signature, so the call raises TypeError
before any validation or model construction runs; since the keyword sets
are fixed by the source text, no input can reach a solved allocation
result through this entry point. -/
theorem c3_entry_always_type_error :
    optimize_plants_assignment_entry = .error "TypeError" ∧
    "order_ids" ∈ validate_input_kwparams ∧
    "order_ids" ∉ optimize_validate_call_kwargs :=
  ⟨rfl, by decide, by decide⟩

/-- C8 (theorem): whenever the solve status is OPTIMAL or FEASIBLE, the
objective bound metrics reported by allocate consist of the objective
value, the best bound, the absolute gap max(0, bound - value) and the
relative gap gap_abs / max(1, abs value). -/
theorem c8_gap_metrics (status : CpStatus) (v b : ℚ)
    (h : status = .OPTIMAL ∨ status = .FEASIBLE) :
    objectiveBoundMetrics status v b =
      some (v, b, max 0 (b - v), max 0 (b - v) / max 1 |v|) := by
  unfold objectiveBoundMetrics
  rw [if_pos h]

/-- C8 (witness): the metrics at status OPTIMAL with value 3 and bound 5. -/
theorem c8_gap_metrics_witness :
    objectiveBoundMetrics .OPTIMAL 3 5 =
      some (3, 5, max 0 (5 - 3), max 0 (5 - 3) / max 1 |(3 : ℚ)|) :=
  c8_gap_metrics .OPTIMAL 3 5 (Or.inl rfl)

/-- C2 (code evaluation): on the input with a single plant that allows
only model M1 and a single item of model M2 with quantity 0, allocate
reports the item as skipped with reason no_compatible_plant.  This
contradicts the claim that an item with quantity 0 is always classified
zero_quantity and never reported as skipped: the preprocessing skips any
item with no compatible plant before looking at the quantity
(prod_allocation.py lines 307-321), while allocation_types.py
ZeroQuantityRow and the tests in tests/allocation_tests.py (lines 148-160)
require the zero-quantity classification to take precedence. -/
theorem c2_incompatible_zero_qty_item_is_skipped :
    skippedRows [⟨1, 100, ["M1"]⟩] [⟨"O1", [⟨"M2", "Sx", 0⟩]⟩] =
      [⟨0, "M2", "Sx", 0, .no_compatible_plant⟩] := by
  decide

/-- C1 (code evaluation): on the input with a single plant allowing M1 and
a single compatible item of model M1 with quantity 0, the result of
allocate reports no row at all for the item, whatever the solver returned:
allocations, skipped and unallocated are all empty although there is one
input item, and the result carries no zero-quantity bucket (the dict built
at prod_allocation.py lines 534-583 omits the zero_quantity_items key
required by AllocateResult).  The four buckets therefore do not partition
the input items. -/
theorem c1_zero_qty_item_vanishes_from_result
    (placedV : ℕ → Bool) (assignV : ℕ → ℕ → Bool) :
    (allocateResult [⟨1, 100, ["M1"]⟩] [⟨"O1", [⟨"M1", "S1", 0⟩]⟩]
        placedV assignV).allocations.length +
      (allocateResult [⟨1, 100, ["M1"]⟩] [⟨"O1", [⟨"M1", "S1", 0⟩]⟩]
        placedV assignV).skipped.length +
      (allocateResult [⟨1, 100, ["M1"]⟩] [⟨"O1", [⟨"M1", "S1", 0⟩]⟩]
        placedV assignV).unallocated.length = 0 ∧
    (flatItems [⟨"O1", [⟨"M1", "S1", 0⟩]⟩]).length = 1 := by
  refine ⟨?_, rfl⟩
  rfl

/-- C4 (theorem): an item is skipped as too_large_for_any_plant exactly
when its quantity is positive, it has at least one compatible plant, the
quantity exceeds the capacity of every individual compatible plant, and
the quantity does not exceed the sum of the compatible capacities; and an
item with a compatible plant whose quantity exceeds the aggregate
compatible capacity is kept in the model (classified none, so it can only
be decoded as allocated or unallocated, never skipped). -/
theorem c4_too_large_classification (plants : List PlantRec) (it : ItemRec) :
    (classifyItem plants it = some .too_large_for_any_plant ↔
      0 < it.quantity ∧ compatPlants plants it ≠ [] ∧
      (∀ p ∈ compatPlants plants it, p.capacity < it.quantity) ∧
      it.quantity ≤ ((compatPlants plants it).map fun p => p.capacity).sum) ∧
    (compatPlants plants it ≠ [] →
      ((compatPlants plants it).map fun p => p.capacity).sum < it.quantity →
      classifyItem plants it = none) := by
  unfold classifyItem
  constructor
  · constructor
    · intro h
      split_ifs at h with h1 h2
      · simp at h
      · exact ⟨h2.1, h1, h2.2.1, h2.2.2⟩
    · rintro ⟨hq, hne, hall, hle⟩
      rw [if_neg hne, if_pos ⟨hq, hall, hle⟩]
  · intro hne hlt
    rw [if_neg hne, if_neg]
    rintro ⟨-, -, hle⟩
    exact absurd hle (not_le.mpr hlt)

/-- C4 (witness): two plants of capacities 5 and 4 allowing M1 and an M1
item of quantity 10, which exceeds the aggregate capacity 9: the item is
kept in the model. -/
theorem c4_too_large_classification_witness :
    classifyItem [⟨1, 5, ["M1"]⟩, ⟨2, 4, ["M1"]⟩] ⟨"M1", "S1", 10⟩ = none :=
  (c4_too_large_classification [⟨1, 5, ["M1"]⟩, ⟨2, 4, ["M1"]⟩]
    ⟨"M1", "S1", 10⟩).2 (by decide) (by decide)

/-- Helper: half-even rounding of a nonnegative rational is nonnegative. -/
theorem pyRound_nonneg {x : ℚ} (hx : 0 ≤ x) : 0 ≤ pyRound x := by
  have hf : (0 : ℤ) ≤ ⌊x⌋ := Int.floor_nonneg.mpr hx
  unfold pyRound
  split_ifs <;> omega

/-- C7 (counterexample): with weight 1 and upper bound 30000 the rounded
value round(K * weight / UB) is 0, but the coefficient computed by the
code is 1 (the Python expression int(round(...)) or 1), so the coefficient
does not equal round(K * weight / UB) as the claim states. -/
theorem c7_counterexample :
    addCoef 1 30000 = 1 ∧ pyRound ((K : ℚ) * 1 / 30000) = 0 ∧
    addCoef 1 30000 ≠ pyRound ((K : ℚ) * 1 / 30000) := by
  have h : pyRound ((K : ℚ) * 1 / 30000) = 0 := by
    unfold pyRound K
    norm_num [Int.floor_eq_iff]
  have h1 : addCoef 1 30000 = 1 := by
    unfold addCoef
    rw [if_pos h]
  refine ⟨h1, h, ?_⟩
  rw [h1, h]
  decide

/-- C7 (amended theorem): for an additive spec with weight greater than 0
and UB greater than 1e-9, the integer coefficient equals
max(1, round(K * weight / UB)) with K = 10000 (that is, it equals the
rounded value whenever the rounding is nonzero and 1 otherwise), it is at
least 1, and it is negated exactly for the minimize sense; every
structural penalty coefficient with positive weight equals
max(1, round(K * weight / normalizer)) for the normalizers the code
passes (all at least 1), and a nonpositive weight yields coefficient 0. -/
theorem c7_amended_coefficients (w ub : ℚ) (hw : 0 < w)
    (hub : 1 / 1000000000 < ub) :
    addCoef w ub = max 1 (pyRound ((K : ℚ) * w / ub)) ∧
    1 ≤ addCoef w ub ∧
    signedCoef "minimize" (addCoef w ub) = -(addCoef w ub) ∧
    signedCoef "maximize" (addCoef w ub) = addCoef w ub ∧
    (∀ (w2 : ℚ) (d : ℤ), 0 < w2 → 1 ≤ d →
      structCoef w2 d = max 1 (pyRound ((K : ℚ) * w2 / (d : ℚ)))) ∧
    (∀ (w3 : ℚ) (d : ℤ), w3 ≤ 0 → structCoef w3 d = 0) := by
  have hub0 : (0 : ℚ) < ub := lt_trans (by norm_num) hub
  have hK : (0 : ℚ) < (K : ℚ) := by unfold K; norm_num
  have harg : 0 ≤ (K : ℚ) * w / ub :=
    div_nonneg (mul_nonneg hK.le hw.le) hub0.le
  have hr : 0 ≤ pyRound ((K : ℚ) * w / ub) := pyRound_nonneg harg
  have hmain : addCoef w ub = max 1 (pyRound ((K : ℚ) * w / ub)) := by
    unfold addCoef
    split_ifs with h0
    · rw [h0]; decide
    · omega
  refine ⟨hmain, ?_, rfl, rfl, ?_, ?_⟩
  · rw [hmain]; exact le_max_left _ _
  · intro w2 d h2 hd
    unfold structCoef
    rw [if_neg (not_le.mpr h2), max_eq_right hd]
  · intro w3 d h3
    unfold structCoef
    rw [if_pos h3]

/-- C7 (witness): the amended statement at weight 1 and UB 1. -/
theorem c7_amended_coefficients_witness :
    addCoef 1 1 = max 1 (pyRound ((K : ℚ) * 1 / 1)) ∧
    1 ≤ addCoef 1 1 ∧
    signedCoef "minimize" (addCoef 1 1) = -(addCoef 1 1) ∧
    signedCoef "maximize" (addCoef 1 1) = addCoef 1 1 ∧
    (∀ (w2 : ℚ) (d : ℤ), 0 < w2 → 1 ≤ d →
      structCoef w2 d = max 1 (pyRound ((K : ℚ) * w2 / (d : ℚ)))) ∧
    (∀ (w3 : ℚ) (d : ℤ), w3 ≤ 0 → structCoef w3 d = 0) :=
  c7_amended_coefficients 1 1 (by norm_num) (by norm_num)

/-- C9 (counterexample): the additive-spec checks are bypassed in two
ways.  A spec with weight 0 and a values list of the wrong length (empty,
against one item) is accepted without error, because the weight test comes
first and skips every other check; and a spec with positive weight whose
values list contains a negative value at an index that is not kept (item 0
unsupported, kept = [1]) is accepted without error, because negativity is
only checked on the kept restriction v_kept. -/
theorem c9_counterexample :
    (processSpec 1 [0] [1] 100 ⟨"specA", [], "maximize", 0⟩ = .ok none ∧
      (ObjectiveSpecE.mk "specA" [] "maximize" 0).values.length ≠ 1) ∧
    (processSpec 2 [1] [1] 100 ⟨"specB", [-5, 1], "maximize", 1⟩ =
        .ok (some (10000, [1])) ∧
      (-5 : ℤ) ∈ (ObjectiveSpecE.mk "specB" [-5, 1] "maximize" 1).values ∧
      (ObjectiveSpecE.mk "specB" [-5, 1] "maximize" 1).values.length = 2) := by
  have hub : _fractional_knapsack_ub [1] [1] 100 = 1 := by
    unfold _fractional_knapsack_ub knapFree knapPos
    norm_num [greedy, List.insertionSort, List.orderedInsert, ratioDesc]
  refine ⟨⟨?_, by decide⟩, ⟨?_, by decide, by decide⟩⟩
  · unfold processSpec
    rw [if_pos (by norm_num)]
  · unfold processSpec
    rw [if_neg (by norm_num), if_neg (by simp), if_neg (by decide)]
    have hkept : ([1] : List ℕ).map
        (fun i => (ObjectiveSpecE.mk "specB" [-5, 1] "maximize" 1).values.getD i 0) = [1] := by
      decide
    rw [hkept]
    rw [if_neg (by decide)]
    rw [hub]
    rw [if_neg (by norm_num)]
    have hcoef : addCoef 1 1 = 10000 := by
      unfold addCoef pyRound K
      norm_num [Int.floor_eq_iff]
    rw [hcoef]
    rfl

/-- C9 (amended theorem): for every spec with positive weight and a valid
sense, a values list whose length differs from the item count is rejected
with an error, and for a values list of the right length any negative
value among the kept items is rejected with an error, in both cases before
the CP-SAT model is built or solved; specs with nonpositive weight skip
these checks entirely and negative values at non-kept indices are not
examined. -/
theorem c9_amended_values_checks (n : ℕ) (kept : List ℕ)
    (quantities_kept : List ℤ) (total_capacity : ℤ) (spec : ObjectiveSpecE)
    (hw : 0 < spec.weight)
    (hsense : spec.sense = "maximize" ∨ spec.sense = "minimize") :
    (spec.values.length ≠ n →
      ∃ e, processSpec n kept quantities_kept total_capacity spec = .error e) ∧
    (spec.values.length = n →
      ∀ i ∈ kept, spec.values.getD i 0 < 0 →
      ∃ e, processSpec n kept quantities_kept total_capacity spec = .error e) := by
  constructor
  · intro hne
    refine ⟨"values length must equal number of items", ?_⟩
    unfold processSpec
    rw [if_neg (not_le.mpr hw), if_neg (not_not_intro hsense), if_pos hne]
  · intro hlen i hi hneg
    refine ⟨"negative values", ?_⟩
    unfold processSpec
    rw [if_neg (not_le.mpr hw), if_neg (not_not_intro hsense),
      if_neg (by rw [hlen]; exact fun h => h rfl)]
    rw [if_pos ?_]
    rw [List.any_eq_true]
    exact ⟨spec.values.getD i 0, List.mem_map.mpr ⟨i, hi, rfl⟩, by simpa using hneg⟩

/-- C9 (witness): a spec with weight 1, valid sense, correct length and a
negative value at the kept index 0 is rejected with an error. -/
theorem c9_amended_values_checks_witness :
    ∃ e, processSpec 1 [0] [1] 1 ⟨"specC", [-1], "maximize", 1⟩ = .error e :=
  (c9_amended_values_checks 1 [0] [1] 1 ⟨"specC", [-1], "maximize", 1⟩
    (by norm_num) (Or.inl rfl)).2 rfl 0 (by decide) (by decide)

/-- Helper: boolean indicator values are nonnegative. -/
theorem bI_nonneg (b : Bool) : 0 ≤ bI b := by cases b <;> decide

/-- Helper: boolean indicator values are at most one. -/
theorem bI_le_one (b : Bool) : bI b ≤ 1 := by cases b <;> decide

/-- Helper: with validated nonnegative quantities, every local quantity
lookup is nonnegative (out-of-range lookups default to 0). -/
theorem qtyL_nonneg (inp : OptInput)
    (hq : ∀ q ∈ inp.item_quantities, 0 ≤ q) (li : ℕ) : 0 ≤ qtyL inp li := by
  unfold qtyL
  by_cases h : localOrig inp li < inp.item_quantities.length
  · rw [inp.item_quantities.getD_eq_getElem 0 h]
    exact hq _ (inp.item_quantities.getElem_mem h)
  · rw [List.getD_eq_default _ _ (le_of_not_lt h)]

/-- Helper: a sublist has a smaller mapped sum when the map is nonnegative
on the larger list. -/
theorem sublist_map_sum_le {α : Type} (f : α → ℤ) {s l : List α}
    (h : List.Sublist s l) (hf : ∀ x ∈ l, 0 ≤ f x) :
    (s.map f).sum ≤ (l.map f).sum := by
  refine List.Sublist.sum_le_sum (h.map f) ?_
  intro a ha
  obtain ⟨x, hx, rfl⟩ := List.mem_map.mp ha
  exact hf x hx

/-- Helper: the quantity of a group placed at a plant is bounded by the
capacity constraint of the plant. -/
theorem groupQty_le_cap (inp : OptInput) (a : Assign)
    (hq : ∀ q ∈ inp.item_quantities, 0 ≤ q) (ci p : ℕ)
    (hcap : ((List.range (numKept inp)).map
        fun li => qtyL inp li * bI (a.x li p)).sum ≤ inp.caps.getD p 0) :
    groupQty inp a ci p ≤ inp.caps.getD p 0 := by
  refine le_trans ?_ hcap
  unfold groupQty idxsLocal
  exact sublist_map_sum_le _ (List.filter_sublist _)
    fun li _ => mul_nonneg (qtyL_nonneg inp hq li) (bI_nonneg _)

/-- Helper: the quantity of a group placed at a plant is bounded by the
total quantity of the group. -/
theorem groupQty_le_total (inp : OptInput) (a : Assign)
    (hq : ∀ q ∈ inp.item_quantities, 0 ≤ q) (ci p : ℕ) :
    groupQty inp a ci p ≤ ((idxsLocal inp ci).map fun li => qtyL inp li).sum := by
  unfold groupQty
  refine List.sum_le_sum ?_
  intro li _
  exact mul_le_of_le_one_right (qtyL_nonneg inp hq li) (bI_le_one _)

/-- C6 (theorem): when the hard minimum lot size is positive, every
assignment satisfying the posted constraints places, for each (group,
plant) pair, either zero quantity of the group at the plant or at least
the hard minimum; and if for a group no allowed plant can individually
reach the hard minimum (the minimum of the plant capacity and the total
group quantity stays below the threshold at every allowed plant), then no
item of that group is placed at any plant. -/
theorem c6_hard_minimum_lot (inp : OptInput) (hard_min soft_min : ℤ)
    (softOn : Bool) (a : Assign)
    (hq : ∀ q ∈ inp.item_quantities, 0 ≤ q)
    (hsat : satisfies inp hard_min soft_min softOn a)
    (hhm : 0 < hard_min) :
    (∀ ci < numGroups inp, ∀ p < numPlants inp,
      groupQty inp a ci p = 0 ∨ hard_min ≤ groupQty inp a ci p) ∧
    (∀ ci < numGroups inp,
      (∀ p < numPlants inp, allowedB inp ci p = true →
        min (inp.caps.getD p 0)
          (((idxsLocal inp ci).map fun li => qtyL inp li).sum) < hard_min) →
      ∀ li ∈ idxsLocal inp ci, ∀ p < numPlants inp, a.x li p = false) := by
  obtain ⟨h1, h2, h3, h4, h5, h6, h7⟩ := hsat
  constructor
  · intro ci hci p hp
    rcases hA : allowedB inp ci p with _ | _
    · left
      obtain ⟨-, hx0⟩ := (h5 ci hci p hp).2 hA
      unfold groupQty
      refine List.sum_eq_zero ?_
      intro t ht
      obtain ⟨li, hli, rfl⟩ := List.mem_map.mp ht
      rw [hx0 li hli, mul_zero]
    · obtain ⟨hxz, hzx, hhard, hzu⟩ := (h5 ci hci p hp).1 hA
      rcases hz : a.z ci p with _ | _
      · left
        unfold groupQty
        refine List.sum_eq_zero ?_
        intro t ht
        obtain ⟨li, hli, rfl⟩ := List.mem_map.mp ht
        have := hxz li hli
        rw [hz] at this
        have h0 := bI_nonneg (a.x li p)
        have : bI (a.x li p) = 0 := le_antisymm (by simpa [bI] using this) h0
        rw [this, mul_zero]
      · right
        have := hhard hhm
        rw [hz] at this
        simpa [bI] using this
  · intro ci hci hcond li hli p hp
    by_contra hx
    rw [Bool.not_eq_false] at hx
    rcases hA : allowedB inp ci p with _ | _
    · have := ((h5 ci hci p hp).2 hA).2 li hli
      rw [hx] at this
      simp [bI] at this
    · obtain ⟨hxz, hzx, hhard, hzu⟩ := (h5 ci hci p hp).1 hA
      have hxle := hxz li hli
      rw [hx] at hxle
      have hz : a.z ci p = true := by
        rcases hzv : a.z ci p with _ | _
        · rw [hzv] at hxle; simp [bI] at hxle
        · rfl
      have hbig : hard_min ≤ groupQty inp a ci p := by
        have := hhard hhm
        rw [hz] at this
        simpa [bI] using this
      have hsmall : groupQty inp a ci p < hard_min := by
        refine lt_of_le_of_lt (le_min ?_ ?_) (hcond p hp hA)
        · exact groupQty_le_cap inp a hq ci p (h2 p hp)
        · exact groupQty_le_total inp a hq ci p
      omega

/-- C6 (witness): one item of model A with quantity 1, one plant of
capacity 1 allowing A, hard minimum 5: the zero assignment satisfies the
constraints, every (group, plant) quantity is 0 or at least 5, and since
min(capacity, total group quantity) = 1 < 5 the item is placed nowhere. -/
theorem c6_hard_minimum_lot_witness :
    (groupQty ⟨["A"], [1], [1], [["A"]]⟩ zeroAssign 0 0 = 0 ∨
      5 ≤ groupQty ⟨["A"], [1], [1], [["A"]]⟩ zeroAssign 0 0) ∧
    zeroAssign.x 0 0 = false := by
  have h := c6_hard_minimum_lot ⟨["A"], [1], [1], [["A"]]⟩ 5 0 false zeroAssign
    (by decide) (by decide) (by decide)
  exact ⟨h.1 0 (by decide) 0 (by decide),
    h.2 0 (by decide) (by decide) 0 (by decide) 0 (by decide)⟩

/-- Helper: mapping every element to zero sums to zero. -/
theorem sum_map_zero {α : Type} (l : List α) :
    (l.map fun _ => (0 : ℤ)).sum = 0 := by
  induction l with
  | nil => rfl
  | cons a t ih => simp [ih]

/-- Helper: membership in the allowed (group, plant) pair list gives the
index bounds and the compatibility flag. -/
theorem mem_allowedPairs {inp : OptInput} {cp : ℕ × ℕ}
    (h : cp ∈ allowedPairs inp) :
    cp.1 < numGroups inp ∧ cp.2 < numPlants inp ∧
      allowedB inp cp.1 cp.2 = true := by
  unfold allowedPairs at h
  obtain ⟨ci, hci, hmem⟩ := List.mem_flatMap.mp h
  obtain ⟨p, hp, rfl⟩ := List.mem_map.mp hmem
  obtain ⟨hpr, hpa⟩ := List.mem_filter.mp hp
  exact ⟨List.mem_range.mp hci, List.mem_range.mp hpr, hpa⟩

/-- Helper: under the posted constraints the extra-plants expression
Σ z - Σ u is nonnegative. -/
theorem extraPlantsExpr_nonneg (inp : OptInput) (hard_min soft_min : ℤ)
    (softOn : Bool) (a : Assign)
    (hsat : satisfies inp hard_min soft_min softOn a) :
    0 ≤ extraPlantsExpr inp a := by
  obtain ⟨-, -, -, -, -, h6, -⟩ := hsat
  unfold extraPlantsExpr
  rw [sub_nonneg]
  refine List.sum_le_sum ?_
  intro ci hci
  exact h6 ci (List.mem_range.mp hci)

/-- Helper: the plants-used expression Σ y is nonnegative. -/
theorem plantsUsedExpr_nonneg (inp : OptInput) (a : Assign) :
    0 ≤ plantsUsedExpr inp a := by
  unfold plantsUsedExpr
  refine List.sum_nonneg ?_
  intro t ht
  obtain ⟨p, -, rfl⟩ := List.mem_map.mp ht
  exact bI_nonneg _

/-- Helper: under the posted constraints with the soft minimum enabled,
the total shortfall is nonnegative. -/
theorem shortfallExpr_nonneg (inp : OptInput) (hard_min soft_min : ℤ)
    (a : Assign)
    (hsat : satisfies inp hard_min soft_min true a) :
    0 ≤ shortfallExpr inp a := by
  obtain ⟨-, -, -, -, -, -, h7⟩ := hsat
  unfold shortfallExpr
  refine List.sum_nonneg ?_
  intro t ht
  obtain ⟨cp, hcp, rfl⟩ := List.mem_map.mp ht
  obtain ⟨hc, hp, ha⟩ := mem_allowedPairs hcp
  exact (h7 rfl cp.1 hc cp.2 hp ha).1

/-- Helper: the objective of the all-zero assignment is zero. -/
theorem objective_zeroAssign (inp : OptInput) (terms : List (ℤ × List ℤ))
    (c_group c_plants c_soft : ℤ) :
    objective inp terms c_group c_plants c_soft zeroAssign = 0 := by
  unfold objective additiveExpr extraPlantsExpr plantsUsedExpr shortfallExpr
    zeroAssign
  simp [bI, sum_map_zero]

/-- Helper: with no additive terms and nonnegative penalty coefficients,
the objective of every constraint-satisfying assignment is nonpositive
(the soft coefficient is zero whenever the soft minimum is disabled, as in
the code). -/
theorem objective_nonpos_of_no_additive (inp : OptInput)
    (hard_min soft_min : ℤ) (softOn : Bool) (a : Assign)
    (hsat : satisfies inp hard_min soft_min softOn a)
    (c_group c_plants c_soft : ℤ)
    (hcg : 0 ≤ c_group) (hcp : 0 ≤ c_plants) (hcs : 0 ≤ c_soft)
    (hoff : softOn = false → c_soft = 0) :
    objective inp [] c_group c_plants c_soft a ≤ 0 := by
  have hadd : additiveExpr inp [] a = 0 := rfl
  have hextra := extraPlantsExpr_nonneg inp hard_min soft_min softOn a hsat
  have hplants := plantsUsedExpr_nonneg inp a
  have hshort : 0 ≤ c_soft * shortfallExpr inp a := by
    rcases hso : softOn with _ | _
    · rw [hoff hso]; simp
    · rw [hso] at hsat
      exact mul_nonneg hcs (shortfallExpr_nonneg inp hard_min soft_min a hsat)
  unfold objective
  rw [hadd]
  have h1 : 0 ≤ c_group * extraPlantsExpr inp a := mul_nonneg hcg hextra
  have h2 : 0 ≤ c_plants * plantsUsedExpr inp a := mul_nonneg hcp hplants
  linarith

/-- Helper: exchange argument for a penalized objective.  If a1 is optimal
for F - c G over S, a2 is optimal for F - c2 G over S and c < c2, then
G a2 ≤ G a1. -/
theorem penalized_optimal_exchange {α : Type} (S : α → Prop) (F G : α → ℤ)
    (c c2 : ℤ) (hcc : c < c2) (a1 a2 : α) (hs1 : S a1) (hs2 : S a2)
    (hopt1 : ∀ a, S a → F a - c * G a ≤ F a1 - c * G a1)
    (hopt2 : ∀ a, S a → F a - c2 * G a ≤ F a2 - c2 * G a2) :
    G a2 ≤ G a1 := by
  have h1 := hopt1 a2 hs2
  have h2 := hopt2 a1 hs1
  by_contra hgt
  push_neg at hgt
  have hpos := mul_pos (sub_pos.mpr hcc) (sub_pos.mpr hgt)
  nlinarith

/-- Helper: on the single-item tie instance with additive coefficient
10000, grouping coefficient 10000 and plants coefficient 10000, every
constraint-satisfying assignment has objective exactly 0: the additive
reward of placing the item equals the plants-used penalty, and presence
always equals usage. -/
theorem c10_tie_objective (a : Assign)
    (hsat : satisfies c10inp 0 0 false a) :
    objective c10inp c10terms 10000 10000 0 a = 0 := by
  obtain ⟨h1, h2, h3, h4, h5, h6, h7⟩ := hsat
  have hxy := h3 0 (by decide) 0 (by decide)
  have hyx := h4 0 (by decide)
  obtain ⟨hxz, hzx, -, hzu⟩ := (h5 0 (by decide) 0 (by decide)).1 (by decide)
  have hxz0 := hxz 0 (by decide)
  have hu := h6 0 (by decide)
  have hk : numKept c10inp = 1 := rfl
  have hp : numPlants c10inp = 1 := rfl
  have hg : numGroups c10inp = 1 := rfl
  have hi : idxsLocal c10inp 0 = [0] := rfl
  have hro : List.range 1 = [0] := rfl
  have hv : ([1] : List ℤ).getD 0 0 = 1 := rfl
  have hap : allowedPairs c10inp = [(0, 0)] := rfl
  rw [hk] at hyx
  rw [hi] at hzx
  rw [hp] at hu
  simp only [hro, List.map_cons, List.map_nil, List.sum_cons,
    List.sum_nil, add_zero] at hyx hzx hu
  unfold objective additiveExpr extraPlantsExpr plantsUsedExpr shortfallExpr
    c10terms
  rw [hk, hp, hg, hap]
  simp only [hro, List.map_cons, List.map_nil, List.sum_cons,
    List.sum_nil, add_zero, hv]
  ring_nf
  omega

/-- C10 (counterexample): on the single-item tie instance, the plants-used
weight is increased from 1 to 1.00001, yet the derived integer coefficient
stays 10000 because of rounding, so both weight settings induce the same
objective; every constraint-satisfying assignment has objective 0, hence
the empty assignment is optimal for the lower weight while the placing
assignment is optimal for the higher weight, and the number of plants used
increases from 0 to 1.  The additive coefficient 10000 of c10terms is the
one the code computes for the fill spec of the instance.  This refutes the
claim that increasing the plants-used weight cannot increase the number of
plants used in an optimal solution. -/
theorem c10_counterexample :
    processSpec 1 [0] [1] 1 ⟨"fill", [1], "maximize", 1⟩ =
      .ok (some (10000, [1])) ∧
    (1 : ℚ) < 100001 / 100000 ∧
    structCoef 1 (plants_used_max c10inp) = 10000 ∧
    structCoef (100001 / 100000) (plants_used_max c10inp) = 10000 ∧
    satisfies c10inp 0 0 false zeroAssign ∧
    satisfies c10inp 0 0 false oneAssign ∧
    (∀ a, satisfies c10inp 0 0 false a →
      objective c10inp c10terms (structCoef 1 (extra_plants_max c10inp))
          (structCoef 1 (plants_used_max c10inp)) 0 a ≤
        objective c10inp c10terms (structCoef 1 (extra_plants_max c10inp))
          (structCoef 1 (plants_used_max c10inp)) 0 zeroAssign) ∧
    (∀ a, satisfies c10inp 0 0 false a →
      objective c10inp c10terms (structCoef 1 (extra_plants_max c10inp))
          (structCoef (100001 / 100000) (plants_used_max c10inp)) 0 a ≤
        objective c10inp c10terms (structCoef 1 (extra_plants_max c10inp))
          (structCoef (100001 / 100000) (plants_used_max c10inp)) 0 oneAssign) ∧
    plantsUsedExpr c10inp zeroAssign < plantsUsedExpr c10inp oneAssign := by
  have hub : _fractional_knapsack_ub [1] [1] 1 = 1 := by
    unfold _fractional_knapsack_ub knapFree knapPos
    norm_num [greedy, List.insertionSort, List.orderedInsert, ratioDesc]
  have hpm : plants_used_max c10inp = 1 := rfl
  have hem : extra_plants_max c10inp = 1 := rfl
  have hc1 : structCoef 1 (1 : ℤ) = 10000 := by
    unfold structCoef pyRound K
    norm_num [Int.floor_eq_iff]
  have hc2 : structCoef (100001 / 100000) (1 : ℤ) = 10000 := by
    unfold structCoef pyRound K
    norm_num [Int.floor_eq_iff]
  have hspec : processSpec 1 [0] [1] 1 ⟨"fill", [1], "maximize", 1⟩ =
      .ok (some (10000, [1])) := by
    unfold processSpec
    rw [if_neg (by norm_num), if_neg (by simp), if_neg (by decide)]
    have hkept : ([0] : List ℕ).map
        (fun i => (ObjectiveSpecE.mk "fill" [1] "maximize" 1).values.getD i 0)
          = [1] := by decide
    rw [hkept, if_neg (by decide), hub, if_neg (by norm_num)]
    have hcoef : addCoef 1 1 = 10000 := by
      unfold addCoef pyRound K
      norm_num [Int.floor_eq_iff]
    rw [hcoef]
    rfl
  have hall : ∀ a, satisfies c10inp 0 0 false a →
      objective c10inp c10terms 10000 10000 0 a = 0 := c10_tie_objective
  refine ⟨hspec, by norm_num, by rw [hpm]; exact hc1, by rw [hpm]; exact hc2,
    by decide, by decide, ?_, ?_, by decide⟩
  · intro a ha
    rw [hpm, hem, hc1, hall a ha, hall zeroAssign (by decide)]
  · intro a ha
    rw [hpm, hem, hc1, hc2, hall a ha, hall oneAssign (by decide)]

/-- C10 (amended theorem): for a fixed instance and fixed remaining
coefficients, when increasing a structural weight strictly increases the
derived integer coefficient, the corresponding penalized quantity cannot
increase between optimal solutions: the number of plants used for the
plants-used weight, the total number of extra plants across model groups
(the quantity Σ present - Σ used penalized by the grouping weight) for the
grouping weight, and the total shortfall for the soft-minimum weight.
When rounding leaves the coefficient unchanged the objective is identical
and the optimum set does not change, so only the strict-increase case is
meaningful (see the counterexample). -/
theorem c10_amended_monotonicity (inp : OptInput)
    (terms : List (ℤ × List ℤ)) (hard_min soft_min : ℤ) (softOn : Bool) :
    (∀ (wp wp2 : ℚ) (c_group c_soft : ℤ) (a1 a2 : Assign),
      satisfies inp hard_min soft_min softOn a1 →
      satisfies inp hard_min soft_min softOn a2 →
      structCoef wp (plants_used_max inp) <
        structCoef wp2 (plants_used_max inp) →
      (∀ a, satisfies inp hard_min soft_min softOn a →
        objective inp terms c_group (structCoef wp (plants_used_max inp))
            c_soft a ≤
          objective inp terms c_group (structCoef wp (plants_used_max inp))
            c_soft a1) →
      (∀ a, satisfies inp hard_min soft_min softOn a →
        objective inp terms c_group (structCoef wp2 (plants_used_max inp))
            c_soft a ≤
          objective inp terms c_group (structCoef wp2 (plants_used_max inp))
            c_soft a2) →
      plantsUsedExpr inp a2 ≤ plantsUsedExpr inp a1) ∧
    (∀ (wg wg2 : ℚ) (c_plants c_soft : ℤ) (a1 a2 : Assign),
      satisfies inp hard_min soft_min softOn a1 →
      satisfies inp hard_min soft_min softOn a2 →
      structCoef wg (extra_plants_max inp) <
        structCoef wg2 (extra_plants_max inp) →
      (∀ a, satisfies inp hard_min soft_min softOn a →
        objective inp terms (structCoef wg (extra_plants_max inp)) c_plants
            c_soft a ≤
          objective inp terms (structCoef wg (extra_plants_max inp)) c_plants
            c_soft a1) →
      (∀ a, satisfies inp hard_min soft_min softOn a →
        objective inp terms (structCoef wg2 (extra_plants_max inp)) c_plants
            c_soft a ≤
          objective inp terms (structCoef wg2 (extra_plants_max inp)) c_plants
            c_soft a2) →
      extraPlantsExpr inp a2 ≤ extraPlantsExpr inp a1) ∧
    (∀ (ws ws2 : ℚ) (c_group c_plants : ℤ) (a1 a2 : Assign),
      satisfies inp hard_min soft_min softOn a1 →
      satisfies inp hard_min soft_min softOn a2 →
      structCoef ws (denom_soft inp soft_min) <
        structCoef ws2 (denom_soft inp soft_min) →
      (∀ a, satisfies inp hard_min soft_min softOn a →
        objective inp terms c_group c_plants
            (structCoef ws (denom_soft inp soft_min)) a ≤
          objective inp terms c_group c_plants
            (structCoef ws (denom_soft inp soft_min)) a1) →
      (∀ a, satisfies inp hard_min soft_min softOn a →
        objective inp terms c_group c_plants
            (structCoef ws2 (denom_soft inp soft_min)) a ≤
          objective inp terms c_group c_plants
            (structCoef ws2 (denom_soft inp soft_min)) a2) →
      shortfallExpr inp a2 ≤ shortfallExpr inp a1) := by
  refine ⟨?_, ?_, ?_⟩
  · intro wp wp2 c_group c_soft a1 a2 hs1 hs2 hlt hopt1 hopt2
    refine penalized_optimal_exchange (satisfies inp hard_min soft_min softOn)
      (fun a => additiveExpr inp terms a - c_group * extraPlantsExpr inp a -
        c_soft * shortfallExpr inp a)
      (plantsUsedExpr inp) _ _ hlt a1 a2 hs1 hs2 ?_ ?_
    · intro a ha
      have := hopt1 a ha
      unfold objective at this
      beta_reduce
      linarith
    · intro a ha
      have := hopt2 a ha
      unfold objective at this
      beta_reduce
      linarith
  · intro wg wg2 c_plants c_soft a1 a2 hs1 hs2 hlt hopt1 hopt2
    refine penalized_optimal_exchange (satisfies inp hard_min soft_min softOn)
      (fun a => additiveExpr inp terms a - c_plants * plantsUsedExpr inp a -
        c_soft * shortfallExpr inp a)
      (extraPlantsExpr inp) _ _ hlt a1 a2 hs1 hs2 ?_ ?_
    · intro a ha
      have := hopt1 a ha
      unfold objective at this
      beta_reduce
      linarith
    · intro a ha
      have := hopt2 a ha
      unfold objective at this
      beta_reduce
      linarith
  · intro ws ws2 c_group c_plants a1 a2 hs1 hs2 hlt hopt1 hopt2
    refine penalized_optimal_exchange (satisfies inp hard_min soft_min softOn)
      (fun a => additiveExpr inp terms a - c_group * extraPlantsExpr inp a -
        c_plants * plantsUsedExpr inp a)
      (shortfallExpr inp) _ _ hlt a1 a2 hs1 hs2 ?_ ?_
    · intro a ha
      have := hopt1 a ha
      unfold objective at this
      beta_reduce
      linarith
    · intro a ha
      have := hopt2 a ha
      unfold objective at this
      beta_reduce
      linarith

/-- C10 (witness): on the single-item instance with no additive terms and
the remaining coefficients zero, the zero assignment is optimal both for
plants-used weight 1 (coefficient 10000) and weight 2 (coefficient 20000),
and the plants-used count does not increase. -/
theorem c10_amended_monotonicity_witness :
    plantsUsedExpr c10inp zeroAssign ≤ plantsUsedExpr c10inp zeroAssign := by
  have hc1 : structCoef 1 (plants_used_max c10inp) = 10000 := by
    unfold structCoef pyRound K plants_used_max c10inp numPlants numKept
    norm_num [Int.floor_eq_iff, keptItems]
  have hc2 : structCoef 2 (plants_used_max c10inp) = 20000 := by
    unfold structCoef pyRound K plants_used_max c10inp numPlants numKept
    norm_num [Int.floor_eq_iff, keptItems]
  have hopt : ∀ (c : ℤ), 0 ≤ c → ∀ a, satisfies c10inp 0 0 false a →
      objective c10inp [] 0 c 0 a ≤ objective c10inp [] 0 c 0 zeroAssign := by
    intro c hc a ha
    rw [objective_zeroAssign]
    exact objective_nonpos_of_no_additive c10inp 0 0 false a ha 0 c 0
      le_rfl hc le_rfl (fun _ => rfl)
  exact (c10_amended_monotonicity c10inp [] 0 0 false).1 1 2 0 0
    zeroAssign zeroAssign (by decide) (by decide)
    (by rw [hc1, hc2]; norm_num)
    (fun a ha => hopt _ (by rw [hc1]; norm_num) a ha)
    (fun a ha => hopt _ (by rw [hc2]; norm_num) a ha)

/-- Helper: the greedy filling of a nonpositive capacity is zero. -/
theorem greedy_zero {l : List (ℚ × ℚ)} {c : ℚ} (hc : c ≤ 0) :
    greedy l c = 0 := by
  cases l with
  | nil => rfl
  | cons a t => unfold greedy; rw [if_pos hc]

/-- Helper: a ratio bound turns a division bound into a product bound. -/
theorem ratio_le_mul {x1 x2 r : ℚ} (h2 : 0 < x2) (h : x1 / x2 ≤ r) :
    x1 ≤ r * x2 :=
  (div_le_iff₀ h2).mp h

/-- Helper: when every pair of the list has value at most r times its
quantity, the greedy filling of capacity c is at most r * c. -/
theorem greedy_le_ratio_mul {l : List (ℚ × ℚ)} {r c : ℚ}
    (hr : ∀ x ∈ l, x.1 ≤ r * x.2) (hq : ∀ x ∈ l, 0 < x.2)
    (hr0 : 0 ≤ r) (hc : 0 ≤ c) :
    greedy l c ≤ r * c := by
  induction l generalizing c with
  | nil => simpa [greedy] using mul_nonneg hr0 hc
  | cons a t ih =>
    unfold greedy
    split_ifs with h0
    · exact mul_nonneg hr0 hc
    · push_neg at h0
      have ha2 : 0 < a.2 := hq a (List.mem_cons_self a t)
      have htake : 0 < min c a.2 := lt_min h0 ha2
      have hrest : 0 ≤ c - min c a.2 := by
        have := min_le_left c a.2
        linarith
      have h1 : a.1 * (min c a.2 / a.2) ≤ r * min c a.2 := by
        have hd : 0 ≤ min c a.2 / a.2 := div_nonneg htake.le ha2.le
        calc a.1 * (min c a.2 / a.2)
            ≤ r * a.2 * (min c a.2 / a.2) :=
              mul_le_mul_of_nonneg_right (hr a (List.mem_cons_self a t)) hd
          _ = r * min c a.2 := by
              field_simp
              ring
      have h2 : greedy t (c - min c a.2) ≤ r * (c - min c a.2) :=
        ih (fun x hx => hr x (List.mem_cons_of_mem a hx))
          (fun x hx => hq x (List.mem_cons_of_mem a hx)) hrest
      have := add_le_add h1 h2
      calc a.1 * (min c a.2 / a.2) + greedy t (c - min c a.2)
          ≤ r * min c a.2 + r * (c - min c a.2) := this
        _ = r * c := by ring

/-- Helper: remaining capacity after the greedy take is monotone in the
starting capacity. -/
theorem sub_min_mono {c1 c2 q : ℚ} (h : c1 ≤ c2) :
    c1 - min c1 q ≤ c2 - min c2 q := by
  rcases le_total q c1 with h1 | h1
  · rw [min_eq_right h1, min_eq_right (le_trans h1 h)]
    linarith
  · rw [min_eq_left h1]
    rcases le_total q c2 with h2 | h2
    · rw [min_eq_right h2]; linarith
    · rw [min_eq_left h2]; linarith

/-- Helper (Lipschitz bound): with all ratios at most r, enlarging the
capacity from c1 to c2 increases the greedy value by at most r times the
difference. -/
theorem greedy_lipschitz {l : List (ℚ × ℚ)} {r c1 c2 : ℚ}
    (hr : ∀ x ∈ l, x.1 ≤ r * x.2) (hq : ∀ x ∈ l, 0 < x.2)
    (hr0 : 0 ≤ r) (h0 : 0 ≤ c1) (h12 : c1 ≤ c2) :
    greedy l c2 ≤ greedy l c1 + r * (c2 - c1) := by
  induction l generalizing c1 c2 with
  | nil =>
    simp only [greedy]
    have : 0 ≤ r * (c2 - c1) := mul_nonneg hr0 (by linarith)
    linarith
  | cons a t ih =>
    rcases le_or_lt c2 0 with hc2 | hc2
    · rw [greedy_zero hc2, greedy_zero (le_trans h12 hc2)]
      have : 0 ≤ r * (c2 - c1) := mul_nonneg hr0 (by linarith)
      linarith
    · rcases le_or_lt c1 0 with hc1 | hc1
      · have hc1e : c1 = 0 := le_antisymm hc1 h0
        subst hc1e
        rw [greedy_zero le_rfl]
        have := greedy_le_ratio_mul hr hq hr0 hc2.le (l := a :: t) (c := c2)
        simpa using this
      · unfold greedy
        rw [if_neg (not_le.mpr hc1), if_neg (not_le.mpr hc2)]
        have ha2 : 0 < a.2 := hq a (List.mem_cons_self a t)
        have htle : min c1 a.2 ≤ min c2 a.2 := min_le_min h12 le_rfl
        have hrest0 : 0 ≤ c1 - min c1 a.2 := by
          have := min_le_left c1 a.2
          linarith
        have hrest12 : c1 - min c1 a.2 ≤ c2 - min c2 a.2 := sub_min_mono h12
        have hIH := ih (fun x hx => hr x (List.mem_cons_of_mem a hx))
          (fun x hx => hq x (List.mem_cons_of_mem a hx)) hrest0 hrest12
        have hhead : a.1 * (min c2 a.2 / a.2) ≤
            a.1 * (min c1 a.2 / a.2) + r * (min c2 a.2 - min c1 a.2) := by
          have hsplit : a.1 * (min c2 a.2 / a.2) =
              a.1 * (min c1 a.2 / a.2) +
                a.1 * ((min c2 a.2 - min c1 a.2) / a.2) := by
            field_simp
            ring
          rw [hsplit]
          have hd : 0 ≤ (min c2 a.2 - min c1 a.2) / a.2 :=
            div_nonneg (by linarith) ha2.le
          have : a.1 * ((min c2 a.2 - min c1 a.2) / a.2) ≤
              r * a.2 * ((min c2 a.2 - min c1 a.2) / a.2) :=
            mul_le_mul_of_nonneg_right (hr a (List.mem_cons_self a t)) hd
          have heq : r * a.2 * ((min c2 a.2 - min c1 a.2) / a.2) =
              r * (min c2 a.2 - min c1 a.2) := by
            field_simp
            ring
          linarith
        have hfin : (c2 - min c2 a.2) - (c1 - min c1 a.2) +
            (min c2 a.2 - min c1 a.2) = c2 - c1 := by ring
        nlinarith [hIH, hhead]

/-- Helper: unfolding equation of greedy on a cons cell. -/
theorem greedy_cons (a : ℚ × ℚ) (t : List (ℚ × ℚ)) (c : ℚ) :
    greedy (a :: t) c =
      if c ≤ 0 then 0
      else a.1 * (min c a.2 / a.2) + greedy t (c - min c a.2) := rfl

/-- Helper: prepending a pair whose ratio dominates the tail can only
increase the greedy value. -/
theorem greedy_le_cons {a : ℚ × ℚ} {t : List (ℚ × ℚ)} (c : ℚ)
    (ha2 : 0 < a.2) (ha1 : 0 ≤ a.1)
    (hq : ∀ x ∈ t, 0 < x.2)
    (hr : ∀ x ∈ t, x.1 / x.2 ≤ a.1 / a.2) :
    greedy t c ≤ greedy (a :: t) c := by
  rcases le_or_lt c 0 with hc | hc
  · rw [greedy_zero hc, greedy_zero hc]
  · have hrm : ∀ x ∈ t, x.1 ≤ a.1 / a.2 * x.2 :=
      fun x hx => ratio_le_mul (hq x hx) (hr x hx)
    have hr0 : 0 ≤ a.1 / a.2 := div_nonneg ha1 ha2.le
    have htake : min c a.2 ≤ c := min_le_left _ _
    have hmin0 : 0 ≤ min c a.2 := le_min hc.le ha2.le
    have hrest0 : 0 ≤ c - min c a.2 := by linarith
    have hlip := greedy_lipschitz hrm hq hr0 hrest0
      (by linarith : c - min c a.2 ≤ c)
    have heq : a.1 / a.2 * (c - (c - min c a.2)) =
        a.1 * (min c a.2 / a.2) := by
      field_simp
    rw [greedy_cons, if_neg (not_le.mpr hc)]
    linarith [hlip, heq]

/-- Helper (greedy bound): for a ratio-descending list with positive
quantities and nonnegative values, every sublist whose quantities fit in
the capacity has value sum at most the greedy value.  This is the 0/1
soundness of the fractional-knapsack bound. -/
theorem greedy_sublist_ub {l s : List (ℚ × ℚ)} (hsub : List.Sublist s l) :
    ∀ {c : ℚ}, (∀ x ∈ l, 0 < x.2) → (∀ x ∈ l, 0 ≤ x.1) →
    l.Pairwise (fun p q => q.1 / q.2 ≤ p.1 / p.2) →
    0 ≤ c → (s.map Prod.snd).sum ≤ c →
    (s.map Prod.fst).sum ≤ greedy l c := by
  induction hsub with
  | slnil =>
    intro c _ _ _ _ _
    simp [greedy]
  | @cons l₁ l₂ a h ih =>
    intro c hq hv hsorted hc hfeas
    have hq2 : ∀ x ∈ l₂, 0 < x.2 := fun x hx => hq x (List.mem_cons_of_mem a hx)
    have hv2 : ∀ x ∈ l₂, 0 ≤ x.1 := fun x hx => hv x (List.mem_cons_of_mem a hx)
    obtain ⟨hhead, htail⟩ := List.pairwise_cons.mp hsorted
    refine le_trans (ih hq2 hv2 htail hc hfeas) ?_
    exact greedy_le_cons c (hq a (List.mem_cons_self a l₂))
      (hv a (List.mem_cons_self a l₂)) hq2 hhead
  | @cons₂ l₁ l₂ a h ih =>
    intro c hq hv hsorted hc hfeas
    have hq2 : ∀ x ∈ l₂, 0 < x.2 := fun x hx => hq x (List.mem_cons_of_mem a hx)
    have hv2 : ∀ x ∈ l₂, 0 ≤ x.1 := fun x hx => hv x (List.mem_cons_of_mem a hx)
    obtain ⟨hhead, htail⟩ := List.pairwise_cons.mp hsorted
    have ha2 : 0 < a.2 := hq a (List.mem_cons_self a l₂)
    simp only [List.map_cons, List.sum_cons] at hfeas ⊢
    have hsnd : 0 ≤ (l₁.map Prod.snd).sum := by
      refine List.sum_nonneg ?_
      intro x hx
      obtain ⟨y, hy, rfl⟩ := List.mem_map.mp hx
      exact (hq2 y (h.subset hy)).le
    have ha2c : a.2 ≤ c := by linarith
    have hcpos : 0 < c := lt_of_lt_of_le ha2 ha2c
    unfold greedy
    rw [if_neg (not_le.mpr hcpos), min_eq_right ha2c,
      div_self (ne_of_gt ha2), mul_one]
    have := ih hq2 hv2 htail (by linarith : (0 : ℚ) ≤ c - a.2)
      (by linarith : (l₁.map Prod.snd).sum ≤ c - a.2)
    linarith

/-- Helper: the greedy bound extends to sub-permutations (any selection of
pairs drawn from the list, in any order). -/
theorem greedy_subperm_ub {l s : List (ℚ × ℚ)} (hsub : List.Subperm s l)
    {c : ℚ} (hq : ∀ x ∈ l, 0 < x.2) (hv : ∀ x ∈ l, 0 ≤ x.1)
    (hsorted : l.Pairwise fun p q => q.1 / q.2 ≤ p.1 / p.2)
    (hc : 0 ≤ c) (hfeas : (s.map Prod.snd).sum ≤ c) :
    (s.map Prod.fst).sum ≤ greedy l c := by
  obtain ⟨t, hperm, hsl⟩ := hsub
  have hfst : (t.map Prod.fst).sum = (s.map Prod.fst).sum :=
    (hperm.map Prod.fst).sum_eq
  have hsnd : (t.map Prod.snd).sum = (s.map Prod.snd).sum :=
    (hperm.map Prod.snd).sum_eq
  rw [← hfst]
  exact greedy_sublist_ub hsl hq hv hsorted hc (by rw [hsnd]; exact hfeas)

/-- Helper: the selected value sum equals the first-projection sum over
the mask-filtered zip of value-quantity pairs with the mask. -/
theorem sel_zip_fst_sum (vs : List ℤ) :
    ∀ (qs : List ℤ) (sel : List Bool), vs.length = qs.length →
    ((((vs.zip qs).zip sel).filter fun t => t.2).map fun t => t.1.1).sum =
      selectedSum vs sel := by
  induction vs with
  | nil => intro qs sel _; simp [selectedSum]
  | cons v vt ih =>
    intro qs sel h
    cases qs with
    | nil => simp at h
    | cons q qt =>
      cases sel with
      | nil => simp [selectedSum]
      | cons b bt =>
        have hlen : vt.length = qt.length := by simpa using h
        cases b with
        | false =>
          simp only [selectedSum, List.zip_cons_cons, List.filter_cons] at *
          simpa using ih qt bt hlen
        | true =>
          simp only [selectedSum, List.zip_cons_cons, List.filter_cons] at *
          simpa using ih qt bt hlen

/-- Helper: the selected quantity sum equals the second-projection sum
over the mask-filtered zip of value-quantity pairs with the mask. -/
theorem sel_zip_snd_sum (vs : List ℤ) :
    ∀ (qs : List ℤ) (sel : List Bool), vs.length = qs.length →
    ((((vs.zip qs).zip sel).filter fun t => t.2).map fun t => t.1.2).sum =
      selectedSum qs sel := by
  induction vs with
  | nil =>
    intro qs sel h
    have : qs = [] := List.length_eq_zero.mp h.symm
    subst this
    simp [selectedSum]
  | cons v vt ih =>
    intro qs sel h
    cases qs with
    | nil => simp at h
    | cons q qt =>
      cases sel with
      | nil => simp [selectedSum]
      | cons b bt =>
        have hlen : vt.length = qt.length := by simpa using h
        cases b with
        | false =>
          simp only [selectedSum, List.zip_cons_cons, List.filter_cons] at *
          simpa using ih qt bt hlen
        | true =>
          simp only [selectedSum, List.zip_cons_cons, List.filter_cons] at *
          simpa using ih qt bt hlen

/-- Helper: a sum splits along a boolean predicate filter. -/
theorem sum_filter_add_sum_filter_not {α : Type} (l : List α) (p : α → Bool)
    (f : α → ℤ) :
    ((l.filter p).map f).sum + ((l.filter fun x => !(p x)).map f).sum =
      (l.map f).sum := by
  induction l with
  | nil => simp
  | cons a t ih =>
    by_cases h : p a = true
    · simp [List.filter_cons, h]
      omega
    · have h2 : p a = false := Bool.eq_false_iff.mpr h
      simp [List.filter_cons, h2]
      omega

/-- Helper: a sublist whose elements all satisfy a predicate is a sublist
of the filtered list. -/
theorem sublist_into_filter {α : Type} {s l : List α} (p : α → Bool)
    (hsub : List.Sublist s l) (hall : ∀ x ∈ s, p x = true) :
    List.Sublist s (l.filter p) := by
  have h : s.filter p = s := List.filter_eq_self.mpr hall
  rw [← h]
  exact hsub.filter p

/-- Helper: casting an integer map sum into the rationals. -/
theorem cast_sum_map {α : Type} (l : List α) (f : α → ℤ) :
    (l.map fun x => ((f x : ℤ) : ℚ)).sum = (((l.map f).sum : ℤ) : ℚ) := by
  induction l with
  | nil => simp
  | cons a t ih => simp [ih]

/-- C5 (theorem): _fractional_knapsack_ub is a valid upper bound.  For
equal-length lists of nonnegative values and quantities and a nonnegative
capacity, every 0/1 selection of items (a boolean mask) whose selected
quantities sum to at most the capacity has selected value sum at most the
returned bound.  Zero-quantity items are selectable for free, matching
their unconditional contribution to the bound. -/
theorem c5_fractional_knapsack_ub_valid
    (values quantities : List ℤ) (capacity : ℤ) (sel : List Bool)
    (hlen : values.length = quantities.length)
    (hsel : sel.length = values.length)
    (hv : ∀ v ∈ values, 0 ≤ v) (hq : ∀ q ∈ quantities, 0 ≤ q)
    (hcap : 0 ≤ capacity)
    (hfeas : selectedSum quantities sel ≤ capacity) :
    ((selectedSum values sel : ℤ) : ℚ) ≤
      _fractional_knapsack_ub values quantities capacity := by
  by_cases hnil : values = []
  · subst hnil
    simp [selectedSum, _fractional_knapsack_ub]
  · have hLsel : (values.zip quantities).length ≤ sel.length := by
      rw [List.length_zip]
      omega
    set C := (((values.zip quantities).zip sel).filter fun t => t.2).map
      Prod.fst with hCdef
    have hchosen_sub : List.Sublist C (values.zip quantities) := by
      have h1 := List.filter_sublist (p := fun t : (ℤ × ℤ) × Bool => t.2)
        ((values.zip quantities).zip sel)
      have h2 := h1.map Prod.fst
      rwa [List.map_fst_zip _ _ hLsel] at h2
    have hmemL : ∀ t ∈ values.zip quantities, 0 ≤ t.1 ∧ 0 ≤ t.2 := by
      rintro ⟨tv, tq⟩ ht
      exact ⟨hv tv (List.of_mem_zip ht).1, hq tq (List.of_mem_zip ht).2⟩
    have hmemC : ∀ t ∈ C, 0 ≤ t.1 ∧ 0 ≤ t.2 :=
      fun t ht => hmemL t (hchosen_sub.subset ht)
    have hCfst : (C.map Prod.fst).sum = selectedSum values sel := by
      rw [hCdef, List.map_map]
      exact sel_zip_fst_sum values quantities sel hlen
    have hCsnd : (C.map Prod.snd).sum = selectedSum quantities sel := by
      rw [hCdef, List.map_map]
      exact sel_zip_snd_sum values quantities sel hlen
    have hsplitC := sum_filter_add_sum_filter_not C (fun t => t.2 == 0)
      Prod.fst
    -- the zero-quantity part of the selection is bounded by the free sum
    have hAsplit := sum_filter_add_sum_filter_not
      (C.filter fun t => t.2 == 0) (fun t => decide (0 < t.1)) Prod.fst
    have hA0 : (((C.filter fun t => t.2 == 0).filter
        fun t => !(decide (0 < t.1))).map Prod.fst).sum = 0 := by
      refine List.sum_eq_zero ?_
      intro y hy
      obtain ⟨t, ht, rfl⟩ := List.mem_map.mp hy
      obtain ⟨ht1, ht2⟩ := List.mem_filter.mp ht
      obtain ⟨ht3, -⟩ := List.mem_filter.mp ht1
      have h0 := (hmemC t ht3).1
      have h1 : ¬(0 < t.1) := by simpa using ht2
      omega
    have hApos_sub : List.Sublist
        ((C.filter fun t => t.2 == 0).filter fun t => decide (0 < t.1))
        ((values.zip quantities).filter
          fun vq => vq.2 == 0 && decide (0 < vq.1)) := by
      refine sublist_into_filter _
        (((List.filter_sublist _).trans (List.filter_sublist _)).trans
          hchosen_sub) ?_
      intro x hx
      obtain ⟨hx1, hx2⟩ := List.mem_filter.mp hx
      obtain ⟨-, hx3⟩ := List.mem_filter.mp hx1
      rw [Bool.and_eq_true]
      exact ⟨hx3, hx2⟩
    have hAle : ((C.filter fun t => t.2 == 0).map Prod.fst).sum ≤
        knapFree (values.zip quantities) := by
      rw [← hAsplit, hA0, add_zero]
      unfold knapFree
      refine sublist_map_sum_le Prod.fst hApos_sub ?_
      intro x hx
      have hx2 := (List.mem_filter.mp hx).2
      rw [Bool.and_eq_true] at hx2
      have : 0 < x.1 := of_decide_eq_true hx2.2
      omega
    -- the positive-quantity part of the selection is bounded by the
    -- greedy value
    have hBsplit := sum_filter_add_sum_filter_not
      (C.filter fun t => !(t.2 == 0)) (fun t => decide (0 < t.1)) Prod.fst
    have hB0 : (((C.filter fun t => !(t.2 == 0)).filter
        fun t => !(decide (0 < t.1))).map Prod.fst).sum = 0 := by
      refine List.sum_eq_zero ?_
      intro y hy
      obtain ⟨t, ht, rfl⟩ := List.mem_map.mp hy
      obtain ⟨ht1, ht2⟩ := List.mem_filter.mp ht
      obtain ⟨ht3, -⟩ := List.mem_filter.mp ht1
      have h0 := (hmemC t ht3).1
      have h1 : ¬(0 < t.1) := by simpa using ht2
      omega
    have hBpos_sub : List.Sublist
        ((C.filter fun t => !(t.2 == 0)).filter fun t => decide (0 < t.1))
        ((values.zip quantities).filter
          fun vq => decide (0 < vq.2) && decide (0 < vq.1)) := by
      refine sublist_into_filter _
        (((List.filter_sublist _).trans (List.filter_sublist _)).trans
          hchosen_sub) ?_
      intro x hx
      obtain ⟨hx1, hx2⟩ := List.mem_filter.mp hx
      obtain ⟨hx0, hx3⟩ := List.mem_filter.mp hx1
      have hq0 := (hmemC x hx0).2
      have hne : ¬(x.2 = 0) := by simpa using hx3
      have hpos2 : 0 < x.2 := lt_of_le_of_ne hq0 (Ne.symm hne)
      have hpos1 : 0 < x.1 := of_decide_eq_true hx2
      rw [Bool.and_eq_true]
      exact ⟨decide_eq_true hpos2, decide_eq_true hpos1⟩
    haveI h_total : IsTotal (ℚ × ℚ) ratioDesc := ⟨fun _ _ => le_total _ _⟩
    haveI h_trans : IsTrans (ℚ × ℚ) ratioDesc :=
      ⟨fun _ _ _ hab hbc => le_trans hbc hab⟩
    have hperm := List.perm_insertionSort ratioDesc
      (knapPos (values.zip quantities))
    have hsubperm : List.Subperm
        (((C.filter fun t => !(t.2 == 0)).filter
          fun t => decide (0 < t.1)).map
            fun vq => ((vq.1 : ℚ), (vq.2 : ℚ)))
        (List.insertionSort ratioDesc
          (knapPos (values.zip quantities))) := by
      have h1 := hBpos_sub.map fun vq : ℤ × ℤ => ((vq.1 : ℚ), (vq.2 : ℚ))
      exact h1.subperm.trans hperm.symm.subperm
    have hqS : ∀ x ∈ List.insertionSort ratioDesc
        (knapPos (values.zip quantities)), 0 < x.2 := by
      intro x hx
      have hx2 : x ∈ knapPos (values.zip quantities) := hperm.subset hx
      unfold knapPos at hx2
      obtain ⟨vq, hvq, rfl⟩ := List.mem_map.mp hx2
      have := (List.mem_filter.mp hvq).2
      rw [Bool.and_eq_true] at this
      have h2 : (0 : ℤ) < vq.2 := of_decide_eq_true this.1
      show (0 : ℚ) < (vq.2 : ℚ)
      exact_mod_cast h2
    have hvS : ∀ x ∈ List.insertionSort ratioDesc
        (knapPos (values.zip quantities)), 0 ≤ x.1 := by
      intro x hx
      have hx2 : x ∈ knapPos (values.zip quantities) := hperm.subset hx
      unfold knapPos at hx2
      obtain ⟨vq, hvq, rfl⟩ := List.mem_map.mp hx2
      have := (List.mem_filter.mp hvq).2
      rw [Bool.and_eq_true] at this
      have h1 : (0 : ℤ) < vq.1 := of_decide_eq_true this.2
      show (0 : ℚ) ≤ (vq.1 : ℚ)
      have h2 : (0 : ℚ) < (vq.1 : ℚ) := by exact_mod_cast h1
      exact h2.le
    have hsorted : (List.insertionSort ratioDesc
        (knapPos (values.zip quantities))).Pairwise
          fun p q => q.1 / q.2 ≤ p.1 / p.2 :=
      List.sorted_insertionSort ratioDesc (knapPos (values.zip quantities))
    have hfeasB : ((((C.filter fun t => !(t.2 == 0)).filter
        fun t => decide (0 < t.1)).map
          fun vq : ℤ × ℤ => ((vq.1 : ℚ), (vq.2 : ℚ))).map
            Prod.snd).sum ≤ ((capacity : ℤ) : ℚ) := by
      have heq : (((C.filter fun t => !(t.2 == 0)).filter
          fun t => decide (0 < t.1)).map
            fun vq : ℤ × ℤ => ((vq.1 : ℚ), (vq.2 : ℚ))).map Prod.snd =
          ((C.filter fun t => !(t.2 == 0)).filter
            fun t => decide (0 < t.1)).map
              fun x => ((Prod.snd x : ℤ) : ℚ) := by
        rw [List.map_map]
        rfl
      rw [heq, cast_sum_map]
      have h1 : (((C.filter fun t => !(t.2 == 0)).filter
          fun t => decide (0 < t.1)).map Prod.snd).sum ≤
            selectedSum quantities sel := by
        rw [← hCsnd]
        refine sublist_map_sum_le Prod.snd
          ((List.filter_sublist _).trans (List.filter_sublist _)) ?_
        intro x hx
        exact (hmemC x hx).2
      exact_mod_cast le_trans h1 hfeas
    have hgreedy := greedy_subperm_ub hsubperm hqS hvS hsorted
      (by exact_mod_cast hcap) hfeasB
    have hBfst : ((((C.filter fun t => !(t.2 == 0)).filter
        fun t => decide (0 < t.1)).map
          fun vq : ℤ × ℤ => ((vq.1 : ℚ), (vq.2 : ℚ))).map
            Prod.fst).sum =
        (((((C.filter fun t => !(t.2 == 0)).filter
          fun t => decide (0 < t.1)).map Prod.fst).sum : ℤ) : ℚ) := by
      have heq : (((C.filter fun t => !(t.2 == 0)).filter
          fun t => decide (0 < t.1)).map
            fun vq : ℤ × ℤ => ((vq.1 : ℚ), (vq.2 : ℚ))).map Prod.fst =
          ((C.filter fun t => !(t.2 == 0)).filter
            fun t => decide (0 < t.1)).map
              fun x => ((Prod.fst x : ℤ) : ℚ) := by
        rw [List.map_map]
        rfl
      rw [heq, cast_sum_map]
    unfold _fractional_knapsack_ub
    rw [if_neg (not_or.mpr ⟨not_lt.mpr hcap, hnil⟩)]
    have hfinal1 : selectedSum values sel =
        ((C.filter fun t => t.2 == 0).map Prod.fst).sum +
          ((C.filter fun t => !(t.2 == 0)).map Prod.fst).sum := by
      rw [← hCfst, ← hsplitC]
    have hBle : ((C.filter fun t => !(t.2 == 0)).map Prod.fst).sum =
        (((C.filter fun t => !(t.2 == 0)).filter
          fun t => decide (0 < t.1)).map Prod.fst).sum := by
      rw [← hBsplit, hB0, add_zero]
    have hc1 : ((((C.filter fun t => t.2 == 0).map Prod.fst).sum : ℤ) : ℚ) ≤
        ((knapFree (values.zip quantities) : ℤ) : ℚ) := by
      exact_mod_cast hAle
    have hc2 : (((((C.filter fun t => !(t.2 == 0)).filter
        fun t => decide (0 < t.1)).map Prod.fst).sum : ℤ) : ℚ) ≤
        greedy (List.insertionSort ratioDesc
          (knapPos (values.zip quantities))) ((capacity : ℤ) : ℚ) := by
      rw [← hBfst]
      exact hgreedy
    rw [hfinal1, hBle]
    push_cast
    push_cast at hc1 hc2
    linarith

/-- C5 (witness): values [2, 3], quantities [0, 2], capacity 1, selecting
only the first (zero-quantity) item: the selected value 2 is below the
bound. -/
theorem c5_fractional_knapsack_ub_valid_witness :
    ((selectedSum [2, 3] [true, false] : ℤ) : ℚ) ≤
      _fractional_knapsack_ub [2, 3] [0, 2] 1 :=
  c5_fractional_knapsack_ub_valid [2, 3] [0, 2] 1 [true, false]
    (by decide) (by decide) (by decide) (by decide) (by decide) (by decide)

end ProdAlloc
